import Mathlib

/-!
Verification of the task-management core ("TodosService") of the
taskboard repository.  The service implementation itself is not among the
provided files; only its unit-test suite (`todos.service.spec.ts`) and the
e2e suite (`todos.e2e-spec.ts`) are.  The operations below are therefore
modelled from the specification (sections 3, 4, 7 of `spec.md`), kept
consistent with every behaviour the test files pin down: error kinds,
the shapes passed to the Prisma repository, the sanitizer applied to
`description`, the version check and increment, and the bulk-delete
partition.

The persistence layer is modelled as an in-memory list of tasks kept in
insertion/storage order, together with an id counter used to generate
fresh ids.  Fallible operations return `Except DomainError`; on an error
no store is produced, matching the spec's "no write occurs" propagation
policy.  The HTML sanitizer is an external library (`sanitize-html`), so
every operation is parameterised by an arbitrary total function
`sanitize : String → String` (totality models "never throws").
-/

namespace Taskboard

/-- A task record, as described in spec §3 (DATA MODEL). -/
structure Task where
  id : String
  title : String
  description : Option String
  completed : Bool
  ownerId : String
  version : Nat
  deriving Repr, DecidableEq

/-- The four abstract domain error kinds of spec §7. -/
inductive DomainError where
  | BadRequest
  | NotFound
  | Forbidden
  | Conflict
  deriving Repr, DecidableEq

/-- Input DTO for `create` / elements of `bulkCreate` (spec §4.3). -/
structure CreateDto where
  title : String
  description : Option String
  deriving Repr, DecidableEq

/-- Patch DTO for `update` (spec §4.3).  Every field is optional; the
`version` field carries the caller's observed version.  An `ownerId`
field is included to model a client attempting to reassign ownership:
the service never reads it (spec §3: "never exposed for reassignment"). -/
structure UpdateDto where
  title : Option String
  description : Option String
  completed : Option Bool
  version : Option Nat
  ownerId : Option String
  deriving Repr, DecidableEq

/-- The list filter of `findAll` (spec §4.3): all, completed, active. -/
inductive Filter where
  | all
  | completed
  | active
  deriving Repr, DecidableEq

/-- The persistence store: tasks in insertion/storage order plus a
counter used to generate fresh abstract ids. -/
structure Store where
  tasks : List Task
  nextId : Nat
  deriving Repr, DecidableEq

/-- Whitespace trimming as performed by `title.trim()` in the service:
drop leading and trailing whitespace characters. -/
def strTrim (s : String) : String :=
  String.mk
    (((s.data.dropWhile Char.isWhitespace).reverse.dropWhile
        Char.isWhitespace).reverse)

/-- Id generation by the repository.  Ids are abstract unique identifiers
(spec §3: an identifier assigned at creation, immutable); the real
store (Prisma) guarantees freshness.  The generator is modelled as an
injective function of the store's id counter; the particular string
shape is irrelevant, only injectivity (freshness) is used. -/
def genId (n : Nat) : String :=
  String.mk (List.replicate (n + 1) 'x')

/-- Repository lookup `findTaskById` (spec §6): first record whose id
matches, or absent. -/
def findTaskById (s : Store) (id : String) : Option Task :=
  s.tasks.find? (fun t => t.id == id)

/-- Modelled from the spec: `TodosService.create` (spec §4.3), whose
implementation file is missing; behaviour pinned by
`todos.service.spec.ts` lines 40–58.  Validates the trimmed title,
sanitizes the description when present, persists with
`ownerId = callerId`, `completed = false`, `version` initialized to 1,
and returns the persisted task with its generated id. -/
def create (sanitize : String → String) (input : CreateDto)
    (callerId : String) (s : Store) : Except DomainError (Task × Store) :=
  if strTrim input.title == "" then
    .error .BadRequest
  else
    let t : Task :=
      { id := genId s.nextId
        title := input.title
        description := input.description.map sanitize
        completed := false
        ownerId := callerId
        version := 1 }
    .ok (t, { tasks := s.tasks ++ [t], nextId := s.nextId + 1 })

/-- Modelled from the spec: `TodosService.findAll` (spec §4.3), whose
implementation file is missing; behaviour pinned by
`todos.service.spec.ts` lines 61–77.  Always scoped to
`ownerId = callerId`; `completed` keeps completed tasks, `active` the
complement, `all` imposes no completed constraint. -/
def findAll (callerId : String) (filter : Filter) (s : Store) : List Task :=
  match filter with
  | .all => s.tasks.filter (fun t => t.ownerId == callerId)
  | .completed => s.tasks.filter (fun t => t.ownerId == callerId && t.completed)
  | .active => s.tasks.filter (fun t => t.ownerId == callerId && !t.completed)

/-- Modelled from the spec: `TodosService.findOne` (spec §4.2–4.3), whose
implementation file is missing; behaviour pinned by
`todos.service.spec.ts` lines 79–95.  Existence is checked first
(`NotFound`), then ownership (`Forbidden`); otherwise the stored record
is returned unmodified. -/
def findOne (id : String) (callerId : String) (s : Store) :
    Except DomainError Task :=
  match findTaskById s id with
  | none => .error .NotFound
  | some t => if t.ownerId == callerId then .ok t else .error .Forbidden

/-- Merge a patch onto the current record (spec §4.3 update step 3):
sanitize `description` when supplied, merge remaining patch fields, bump
`version`; `id` and `ownerId` are never taken from the patch. -/
def mergePatch (sanitize : String → String) (cur : Task) (patch : UpdateDto) :
    Task :=
  { id := cur.id
    title := patch.title.getD cur.title
    description :=
      match patch.description with
      | some d => some (sanitize d)
      | none => cur.description
    completed := patch.completed.getD cur.completed
    ownerId := cur.ownerId
    version := cur.version + 1 }

/-- Replace the stored record with the given id (repository
`updateTask`), preserving storage order. -/
def storeUpdate (s : Store) (id : String) (t' : Task) : Store :=
  { s with tasks := s.tasks.map (fun t => if t.id == id then t' else t) }

/-- Modelled from the spec: `TodosService.update` (spec §4.3), whose
implementation file is missing; behaviour pinned by
`todos.service.spec.ts` lines 97–117 and the optimistic-locking e2e test.
Loads the record via `findOne`, fails `Conflict` unless the patch
carries exactly the current version (an absent version is a guaranteed
mismatch), then merges, bumps the version and persists. -/
def update (sanitize : String → String) (id : String) (patch : UpdateDto)
    (callerId : String) (s : Store) : Except DomainError (Task × Store) :=
  match findOne id callerId s with
  | .error e => .error e
  | .ok cur =>
    if patch.version == some cur.version then
      let t' := mergePatch sanitize cur patch
      .ok (t', storeUpdate s id t')
    else
      .error .Conflict

/-- Modelled from the spec: `TodosService.remove` (spec §4.3), whose
implementation file is missing; behaviour pinned by
`todos.service.spec.ts` lines 119–125.  `findOne` first, then delete by
id; no version check. -/
def remove (id : String) (callerId : String) (s : Store) :
    Except DomainError Store :=
  match findOne id callerId s with
  | .error e => .error e
  | .ok _ => .ok { s with tasks := s.tasks.filter (fun t => !(t.id == id)) }

/-- Build the batch of task records for `bulkCreate`, one per input in
input order, with consecutive generated ids starting at the given
counter value. -/
def createTasks (sanitize : String → String) (callerId : String) :
    Nat → List CreateDto → List Task
  | _, [] => []
  | n, i :: is =>
    { id := genId n
      title := i.title
      description := i.description.map sanitize
      completed := false
      ownerId := callerId
      version := 1 : Task } :: createTasks sanitize callerId (n + 1) is

/-- Modelled from the spec: `TodosService.bulkCreate` (spec §4.3), whose
implementation file is missing; behaviour pinned by
`todos.service.spec.ts` lines 127–139.  Validates every title up front,
failing the whole batch with `BadRequest` on any empty/whitespace-only
title; otherwise persists every element in one transaction and returns
the created tasks in input order. -/
def bulkCreate (sanitize : String → String) (inputs : List CreateDto)
    (callerId : String) (s : Store) :
    Except DomainError (List Task × Store) :=
  if inputs.any (fun i => strTrim i.title == "") then
    .error .BadRequest
  else
    let created := createTasks sanitize callerId s.nextId inputs
    .ok (created,
      { tasks := s.tasks ++ created, nextId := s.nextId + inputs.length })

/-- Decide whether an id resolves to a record owned by the caller. -/
def ownedBy (s : Store) (callerId : String) (id : String) : Bool :=
  match findTaskById s id with
  | some t => t.ownerId == callerId
  | none => false

/-- Result shape of `bulkDelete` (spec §4.3). -/
structure BulkDeleteResult where
  deleted : List String
  notFound : List String
  deriving Repr, DecidableEq

/-- Modelled from the spec: `TodosService.bulkDelete` (spec §4.3), whose
implementation file is missing; behaviour pinned by
`todos.service.spec.ts` lines 141–150.  Splits the requested ids into
the owned subset (deleted) and the rest (notFound: missing or foreign),
removes exactly the owned subset, and never raises. -/
def bulkDelete (ids : List String) (callerId : String) (s : Store) :
    BulkDeleteResult × Store :=
  let del := ids.filter (fun id => ownedBy s callerId id)
  let nf := ids.filter (fun id => !(ownedBy s callerId id))
  (⟨del, nf⟩,
   { s with tasks := s.tasks.filter (fun t => !(del.contains t.id)) })

/-- One public mutating operation of the service, with its caller. -/
inductive Op where
  | opCreate (input : CreateDto) (caller : String)
  | opUpdate (id : String) (patch : UpdateDto) (caller : String)
  | opRemove (id : String) (caller : String)
  | opBulkCreate (inputs : List CreateDto) (caller : String)
  | opBulkDelete (ids : List String) (caller : String)
  deriving Repr

/-- Effect of one operation on the store.  A domain error propagates to
the caller with no write (spec §7: the version/ownership checks happen
strictly before any write), so on an error the store is unchanged. -/
def step (sanitize : String → String) (op : Op) (s : Store) : Store :=
  match op with
  | .opCreate input caller =>
    match create sanitize input caller s with
    | .ok (_, s') => s'
    | .error _ => s
  | .opUpdate id patch caller =>
    match update sanitize id patch caller s with
    | .ok (_, s') => s'
    | .error _ => s
  | .opRemove id caller =>
    match remove id caller s with
    | .ok s' => s'
    | .error _ => s
  | .opBulkCreate inputs caller =>
    match bulkCreate sanitize inputs caller s with
    | .ok (_, s') => s'
    | .error _ => s
  | .opBulkDelete ids caller => (bulkDelete ids caller s).2

/-- Effect of a sequence of operations, applied left to right. -/
def steps (sanitize : String → String) (ops : List Op) (s : Store) : Store :=
  ops.foldl (fun s' op => step sanitize op s') s

/-- Store well-formedness: every stored id was produced by the generator
below the current counter, and stored ids are pairwise distinct.  Holds
for the empty initial store and is preserved by every operation. -/
def Store.WF (s : Store) : Prop :=
  (∀ t ∈ s.tasks, ∃ k, k < s.nextId ∧ t.id = genId k) ∧
  (s.tasks.map Task.id).Nodup

/-- The initial, empty store. -/
def Store.init : Store := ⟨[], 0⟩

/-! ### Concrete sample data used by the witness theorems -/

/-- A sample task owned by `"u1"`. -/
def demoTask1 : Task :=
  { id := genId 0, title := "A", description := none, completed := false
    ownerId := "u1", version := 1 }

/-- A sample task owned by `"u2"`. -/
def demoTask2 : Task :=
  { id := genId 1, title := "B", description := some "d", completed := true
    ownerId := "u2", version := 3 }

/-- A sample store holding one task of each owner. -/
def demoStore : Store := { tasks := [demoTask1, demoTask2], nextId := 2 }

/-! ### Helper lemmas -/

/-- The id generator is injective, i.e. generated ids are fresh. -/
theorem genId_injective : Function.Injective genId := by
  intro m n h
  have h2 : (List.replicate (m + 1) 'x').length = (List.replicate (n + 1) 'x').length := by
    have := congrArg (fun s => s.data.length) h
    simpa [genId] using this
  simp only [List.length_replicate] at h2
  omega

/-- A successful lookup returns a record carrying the looked-up id. -/
theorem findTaskById_id {s : Store} {id : String} {t : Task}
    (h : findTaskById s id = some t) : t.id = id := by
  have := List.find?_some h
  simpa using this

/-- A successful lookup returns a stored record. -/
theorem findTaskById_mem {s : Store} {id : String} {t : Task}
    (h : findTaskById s id = some t) : t ∈ s.tasks :=
  List.mem_of_find?_eq_some h

/-- In a store with pairwise-distinct ids, two stored records with the
same id are the same record. -/
theorem eq_of_mem_of_id_eq {l : List Task} (h : (l.map Task.id).Nodup)
    {a b : Task} (ha : a ∈ l) (hb : b ∈ l) (hid : a.id = b.id) : a = b :=
  List.inj_on_of_nodup_map h ha hb hid

/-- Lookup via find? by id is unaffected by a map that preserves ids,
up to applying the map to the result. -/
theorem find?_map_of_id_eq (l : List Task) (g : Task → Task)
    (hg : ∀ x, (g x).id = x.id) (id : String) :
    (l.map g).find? (fun t => t.id == id) =
      ((l.find? (fun t => t.id == id)).map g) := by
  rw [List.find?_map]
  have hp : ((fun t : Task => t.id == id) ∘ g) = (fun t : Task => t.id == id) := by
    funext x
    simp [Function.comp, hg]
  rw [hp]

/-! ### C3: findOne error ordering and result -/

/-- C3: for every id and callerId, `findOne` fails with `NotFound` when
no record with that id exists; fails with `Forbidden` when the record
exists but its ownerId differs from callerId (existence is checked
before ownership); and otherwise returns the stored record unmodified. -/
theorem findOne_cases (id callerId : String) (s : Store) :
    (findTaskById s id = none → findOne id callerId s = .error .NotFound) ∧
    (∀ t, findTaskById s id = some t → t.ownerId ≠ callerId →
      findOne id callerId s = .error .Forbidden) ∧
    (∀ t, findTaskById s id = some t → t.ownerId = callerId →
      findOne id callerId s = .ok t) := by
  refine ⟨fun h => by simp [findOne, h], fun t h hne => ?_, fun t h he => ?_⟩
  · simp [findOne, h, hne]
  · simp [findOne, h, he]

/-- Witness for C3 at concrete inputs: a missing id, a foreign-owned id
and an owned id in the sample store. -/
theorem findOne_cases_witness :
    findOne (genId 5) "u1" demoStore = .error .NotFound ∧
    findOne (genId 1) "u1" demoStore = .error .Forbidden ∧
    findOne (genId 0) "u1" demoStore = .ok demoTask1 :=
  ⟨(findOne_cases (genId 5) "u1" demoStore).1 (by decide),
   (findOne_cases (genId 1) "u1" demoStore).2.1 demoTask2 (by decide) (by decide),
   (findOne_cases (genId 0) "u1" demoStore).2.2 demoTask1 (by decide) (by decide)⟩

/-! ### C4: create validation and persistence -/

/-- C4: `create` fails with `BadRequest` and persists nothing when the
trimmed title is empty; otherwise it persists a task with
`ownerId = callerId`, `completed = false`, initialized version, the
unchanged title and the sanitized description, and returns that task
with its generated id. -/
theorem create_spec (sanitize : String → String) (input : CreateDto)
    (callerId : String) (s : Store) :
    (strTrim input.title = "" →
      create sanitize input callerId s = .error .BadRequest ∧
      step sanitize (.opCreate input callerId) s = s) ∧
    (strTrim input.title ≠ "" → ∃ t s',
      create sanitize input callerId s = .ok (t, s') ∧
      t.ownerId = callerId ∧ t.completed = false ∧ t.version = 1 ∧
      t.title = input.title ∧ t.description = input.description.map sanitize ∧
      t.id = genId s.nextId ∧ s'.tasks = s.tasks ++ [t]) := by
  constructor
  · intro h
    have hE : (strTrim input.title == "") = true := by simpa using h
    constructor
    · simp [create, hE]
    · simp [step, create, hE]
  · intro h
    have hE : (strTrim input.title == "") = false := by simpa using h
    refine ⟨{ id := genId s.nextId, title := input.title
              description := input.description.map sanitize
              completed := false, ownerId := callerId, version := 1 },
            { tasks := s.tasks ++
                [{ id := genId s.nextId, title := input.title
                   description := input.description.map sanitize
                   completed := false, ownerId := callerId, version := 1 }]
              nextId := s.nextId + 1 },
            ?_, rfl, rfl, rfl, rfl, rfl, rfl, rfl⟩
    simp [create, hE]

/-- Witness for C4 at concrete inputs: a whitespace-only title and a
valid title. -/
theorem create_spec_witness :
    (strTrim "  " = "" ∧
      create (fun d => "s:" ++ d) ⟨"  ", some "x"⟩ "u1" demoStore =
        .error .BadRequest) ∧
    (strTrim "Test" ≠ "" ∧ ∃ t s',
      create (fun d => "s:" ++ d) ⟨"Test", some "x"⟩ "u1" demoStore =
        .ok (t, s') ∧
      t.ownerId = "u1" ∧ t.completed = false ∧ t.version = 1 ∧
      t.title = "Test" ∧
      t.description = (some "x").map (fun d => "s:" ++ d) ∧
      t.id = genId demoStore.nextId ∧
      s'.tasks = demoStore.tasks ++ [t]) := by
  constructor
  · exact ⟨by decide,
      ((create_spec (fun d => "s:" ++ d) ⟨"  ", some "x"⟩ "u1" demoStore).1
        (by decide)).1⟩
  · refine ⟨by decide, ?_⟩
    obtain ⟨t, s', h⟩ :=
      (create_spec (fun d => "s:" ++ d) ⟨"Test", some "x"⟩ "u1" demoStore).2
        (by decide)
    exact ⟨t, s', h⟩

/-! ### C7: findAll scoping and filters -/

/-- C7: every task returned by `findAll` belongs to the caller, and the
three filters keep exactly the caller's tasks that are (respectively)
unconstrained, completed, or not completed. -/
theorem findAll_spec (callerId : String) (f : Filter) (s : Store) :
    (∀ t ∈ findAll callerId f s, t.ownerId = callerId) ∧
    (∀ t, t ∈ findAll callerId .all s ↔
      t ∈ s.tasks ∧ t.ownerId = callerId) ∧
    (∀ t, t ∈ findAll callerId .completed s ↔
      t ∈ s.tasks ∧ t.ownerId = callerId ∧ t.completed = true) ∧
    (∀ t, t ∈ findAll callerId .active s ↔
      t ∈ s.tasks ∧ t.ownerId = callerId ∧ t.completed = false) := by
  refine ⟨?_, ?_, ?_, ?_⟩
  · intro t ht
    cases f <;> simp [findAll, List.mem_filter] at ht <;> tauto
  · intro t
    simp [findAll, List.mem_filter]
  · intro t
    simp [findAll, List.mem_filter]
  · intro t
    simp [findAll, List.mem_filter]

/-- Witness for C7 at concrete inputs: the sample store restricted to
each caller and filter. -/
theorem findAll_spec_witness :
    demoTask1 ∈ findAll "u1" Filter.all demoStore ∧
    demoTask1.ownerId = "u1" ∧
    (demoTask2 ∈ findAll "u2" Filter.completed demoStore ↔
      demoTask2 ∈ demoStore.tasks ∧ demoTask2.ownerId = "u2" ∧
        demoTask2.completed = true) ∧
    (demoTask1 ∈ findAll "u1" Filter.active demoStore ↔
      demoTask1 ∈ demoStore.tasks ∧ demoTask1.ownerId = "u1" ∧
        demoTask1.completed = false) :=
  ⟨by decide,
   (findAll_spec "u1" Filter.all demoStore).1 demoTask1 (by decide),
   (findAll_spec "u2" Filter.completed demoStore).2.2.1 demoTask2,
   (findAll_spec "u1" Filter.active demoStore).2.2.2 demoTask1⟩

/-! ### Inversion helpers for successful operations -/

/-- A successful `findOne` returns exactly the stored record and implies
ownership. -/
theorem findOne_ok_elim {id callerId : String} {s : Store} {t : Task}
    (h : findOne id callerId s = .ok t) :
    findTaskById s id = some t ∧ t.ownerId = callerId := by
  unfold findOne at h
  cases hf : findTaskById s id <;> rw [hf] at h
  · simp at h
  · rename_i u
    by_cases ho : u.ownerId = callerId
    · simp [ho] at h
      subst h
      exact ⟨rfl, ho⟩
    · simp [ho] at h

/-- A successful `create` returns exactly the freshly generated record,
appended to the store. -/
theorem create_ok_elim {sanitize : String → String} {input : CreateDto}
    {callerId : String} {s : Store} {t : Task} {s' : Store}
    (h : create sanitize input callerId s = .ok (t, s')) :
    t = { id := genId s.nextId, title := input.title
          description := input.description.map sanitize, completed := false
          ownerId := callerId, version := 1 } ∧
    s' = { tasks := s.tasks ++ [t], nextId := s.nextId + 1 } := by
  unfold create at h
  by_cases hE : (strTrim input.title == "") = true
  · simp [hE] at h
  · simp [hE] at h
    obtain ⟨h1, h2⟩ := h
    subst h1
    subst h2
    exact ⟨rfl, rfl⟩

/-- A successful `update` decomposes into a successful guarded lookup, a
passed version check, the merged record and the rewritten store. -/
theorem update_ok_elim {sanitize : String → String} {id : String}
    {patch : UpdateDto} {callerId : String} {s : Store} {t' : Task}
    {s' : Store} (h : update sanitize id patch callerId s = .ok (t', s')) :
    ∃ cur, findTaskById s id = some cur ∧ cur.ownerId = callerId ∧
      patch.version = some cur.version ∧
      t' = mergePatch sanitize cur patch ∧ s' = storeUpdate s id t' := by
  unfold update at h
  cases hOne : findOne id callerId s <;> rw [hOne] at h
  · simp at h
  · rename_i cur
    by_cases hv : (patch.version == some cur.version) = true
    · simp [hv] at h
      obtain ⟨h1, h2⟩ := h
      subst h1
      subst h2
      obtain ⟨hf, ho⟩ := findOne_ok_elim hOne
      exact ⟨cur, hf, ho, by simpa using hv, rfl, rfl⟩
    · simp [hv] at h

/-- A successful `remove` implies an owned record and filters it out. -/
theorem remove_ok_elim {id callerId : String} {s s' : Store}
    (h : remove id callerId s = .ok s') :
    (∃ t, findTaskById s id = some t ∧ t.ownerId = callerId) ∧
    s' = { s with tasks := s.tasks.filter (fun x => !(x.id == id)) } := by
  unfold remove at h
  cases hOne : findOne id callerId s <;> rw [hOne] at h
  · simp at h
  · rename_i u
    obtain ⟨hf, ho⟩ := findOne_ok_elim hOne
    simp at h
    exact ⟨⟨u, hf, ho⟩, h.symm⟩

/-- A successful `bulkCreate` returns exactly the generated batch,
appended to the store. -/
theorem bulkCreate_ok_elim {sanitize : String → String}
    {inputs : List CreateDto} {callerId : String} {s : Store}
    {ts : List Task} {s' : Store}
    (h : bulkCreate sanitize inputs callerId s = .ok (ts, s')) :
    ts = createTasks sanitize callerId s.nextId inputs ∧
    s' = { tasks := s.tasks ++ ts, nextId := s.nextId + inputs.length } := by
  unfold bulkCreate at h
  by_cases hE : (inputs.any (fun i => strTrim i.title == "")) = true
  · simp [hE] at h
  · simp [hE] at h
    obtain ⟨h1, h2⟩ := h
    subst h1
    subst h2
    exact ⟨rfl, rfl⟩

/-! ### C1: stale-version updates fail Conflict with no write -/

/-- C1: an owner's `update` whose patch carries a version different from
the stored one fails with `Conflict`; the store (hence the stored
record and its version) is unchanged, and repeating the same
stale-version update against the resulting state fails with `Conflict`
again. -/
theorem update_stale_conflict (sanitize : String → String) (id : String)
    (patch : UpdateDto) (callerId : String) (s : Store) (t : Task) (w : Nat)
    (hfind : findTaskById s id = some t) (hown : t.ownerId = callerId)
    (hver : patch.version = some w) (hne : w ≠ t.version) :
    update sanitize id patch callerId s = .error .Conflict ∧
    step sanitize (.opUpdate id patch callerId) s = s ∧
    update sanitize id patch callerId
      (step sanitize (.opUpdate id patch callerId) s) = .error .Conflict := by
  have h1 : findOne id callerId s = .ok t :=
    (findOne_cases id callerId s).2.2 t hfind hown
  have hv : (patch.version == some t.version) = false := by
    simp [hver, hne]
  have hu : update sanitize id patch callerId s = .error .Conflict := by
    simp [update, h1, hv]
  have hs : step sanitize (.opUpdate id patch callerId) s = s := by
    simp [step, hu]
  exact ⟨hu, hs, by rw [hs]; exact hu⟩

/-- Witness for C1 at concrete inputs: a stale version 2 against the
stored version 1 of the sample task. -/
theorem update_stale_conflict_witness :
    update (fun d => d) (genId 0) ⟨some "T", none, none, some 2, none⟩
      "u1" demoStore = .error .Conflict ∧
    step (fun d => d)
      (.opUpdate (genId 0) ⟨some "T", none, none, some 2, none⟩ "u1")
      demoStore = demoStore ∧
    update (fun d => d) (genId 0) ⟨some "T", none, none, some 2, none⟩
      "u1"
      (step (fun d => d)
        (.opUpdate (genId 0) ⟨some "T", none, none, some 2, none⟩ "u1")
        demoStore) = .error .Conflict := by
  have h := update_stale_conflict (fun d => d) (genId 0)
    ⟨some "T", none, none, some 2, none⟩ "u1" demoStore demoTask1 2
    (by decide) (by decide) (by decide) (by decide)
  exact ⟨h.1, h.2.1, h.2.2⟩

/-! ### C9: version-less updates fail Conflict with no write -/

/-- C9: an owner's `update` whose patch omits the version field is
treated as a guaranteed version mismatch: it fails with `Conflict` and
performs no write. -/
theorem update_missing_version_conflict (sanitize : String → String)
    (id : String) (patch : UpdateDto) (callerId : String) (s : Store)
    (t : Task) (hfind : findTaskById s id = some t)
    (hown : t.ownerId = callerId) (hver : patch.version = none) :
    update sanitize id patch callerId s = .error .Conflict ∧
    step sanitize (.opUpdate id patch callerId) s = s := by
  have h1 : findOne id callerId s = .ok t :=
    (findOne_cases id callerId s).2.2 t hfind hown
  have hv : (patch.version == some t.version) = false := by
    simp [hver]
  have hu : update sanitize id patch callerId s = .error .Conflict := by
    simp [update, h1, hv]
  exact ⟨hu, by simp [step, hu]⟩

/-- Witness for C9 at concrete inputs: a patch with no version against
the sample task. -/
theorem update_missing_version_conflict_witness :
    update (fun d => d) (genId 0) ⟨some "T", none, none, none, none⟩
      "u1" demoStore = .error .Conflict ∧
    step (fun d => d)
      (.opUpdate (genId 0) ⟨some "T", none, none, none, none⟩ "u1")
      demoStore = demoStore := by
  have h := update_missing_version_conflict (fun d => d) (genId 0)
    ⟨some "T", none, none, none, none⟩ "u1" demoStore demoTask1
    (by decide) (by decide) (by decide)
  exact ⟨h.1, h.2⟩

/-! ### C2: successful updates bump the version by exactly one -/

/-- C2: an owner's `update` whose patch carries exactly the current
version `v` succeeds, the persisted record has version `v + 1`, and— on
the resulting store—a subsequent update by the owner succeeds exactly
when its patch carries `v + 1`. -/
theorem update_success_version (sanitize : String → String) (id : String)
    (patch : UpdateDto) (callerId : String) (s : Store) (t : Task)
    (hfind : findTaskById s id = some t) (hown : t.ownerId = callerId)
    (hver : patch.version = some t.version) :
    ∃ t' s', update sanitize id patch callerId s = .ok (t', s') ∧
      t'.version = t.version + 1 ∧
      findTaskById s' id = some t' ∧
      (∀ patch₂ : UpdateDto,
        (∃ r, update sanitize id patch₂ callerId s' = .ok r) ↔
          patch₂.version = some (t.version + 1)) := by
  have h1 : findOne id callerId s = .ok t :=
    (findOne_cases id callerId s).2.2 t hfind hown
  have hv : (patch.version == some t.version) = true := by
    simp [hver]
  have hid : t.id = id := findTaskById_id hfind
  set m := mergePatch sanitize t patch with hm
  have hu : update sanitize id patch callerId s =
      .ok (m, storeUpdate s id m) := by
    simp [update, h1, hv, hm]
  have hg : ∀ x : Task,
      ((fun x => if x.id == id then m else x) x).id = x.id := by
    intro x
    by_cases hx : x.id = id
    · simp [hx, hm, mergePatch, hid]
    · simp [hx]
  have hfind' : findTaskById (storeUpdate s id m) id = some m := by
    unfold findTaskById storeUpdate
    rw [find?_map_of_id_eq _ _ hg]
    rw [show s.tasks.find? (fun x => x.id == id) = some t from hfind]
    simp [hid]
  have hOwn' : m.ownerId = callerId := by
    simp [hm, mergePatch, hown]
  have hmv : m.version = t.version + 1 := by
    simp [hm, mergePatch]
  have hOne' : findOne id callerId (storeUpdate s id m) = .ok m :=
    (findOne_cases id callerId _).2.2 m hfind' hOwn'
  refine ⟨m, storeUpdate s id m, hu, hmv, hfind', fun patch₂ => ?_⟩
  constructor
  · rintro ⟨r, hr⟩
    by_cases hb : patch₂.version = some (t.version + 1)
    · exact hb
    · exfalso
      have hbv : (patch₂.version == some m.version) = false := by
        simp [hmv, hb]
      simp [update, hOne', hbv] at hr
  · intro hb
    have hbv : (patch₂.version == some m.version) = true := by
      simp [hmv, hb]
    exact ⟨(mergePatch sanitize m patch₂,
            storeUpdate (storeUpdate s id m) id (mergePatch sanitize m patch₂)),
           by simp [update, hOne', hbv]⟩

/-- Witness for C2 at concrete inputs: updating the sample task with its
current version 1. -/
theorem update_success_version_witness :
    ∃ t' s', update (fun d => d) (genId 0)
        ⟨some "T2", none, none, some 1, none⟩ "u1" demoStore =
          .ok (t', s') ∧
      t'.version = demoTask1.version + 1 ∧
      findTaskById s' (genId 0) = some t' ∧
      (∀ patch₂ : UpdateDto,
        (∃ r, update (fun d => d) (genId 0) patch₂ "u1" s' = .ok r) ↔
          patch₂.version = some (demoTask1.version + 1)) :=
  update_success_version (fun d => d) (genId 0)
    ⟨some "T2", none, none, some 1, none⟩ "u1" demoStore demoTask1
    (by decide) (by decide) (by decide)

/-! ### Properties of the generated batch of bulkCreate -/

/-- The generated batch keeps the input titles in input order. -/
theorem createTasks_map_title (sanitize : String → String)
    (callerId : String) :
    ∀ (n : Nat) (inputs : List CreateDto),
      (createTasks sanitize callerId n inputs).map Task.title =
        inputs.map CreateDto.title
  | _, [] => rfl
  | n, _ :: is => by
    simp [createTasks, createTasks_map_title sanitize callerId (n + 1) is]

/-- The generated batch carries the sanitized descriptions in input
order. -/
theorem createTasks_map_description (sanitize : String → String)
    (callerId : String) :
    ∀ (n : Nat) (inputs : List CreateDto),
      (createTasks sanitize callerId n inputs).map Task.description =
        inputs.map (fun i => i.description.map sanitize)
  | _, [] => rfl
  | n, _ :: is => by
    simp [createTasks,
      createTasks_map_description sanitize callerId (n + 1) is]

/-- The generated batch has one task per input. -/
theorem createTasks_length (sanitize : String → String) (callerId : String) :
    ∀ (n : Nat) (inputs : List CreateDto),
      (createTasks sanitize callerId n inputs).length = inputs.length
  | _, [] => rfl
  | n, _ :: is => by
    simp [createTasks, createTasks_length sanitize callerId (n + 1) is]

/-- Every task of the generated batch belongs to the caller, starts
uncompleted at version 1, and has an id generated within the batch's
counter range. -/
theorem createTasks_mem (sanitize : String → String) (callerId : String) :
    ∀ (n : Nat) (inputs : List CreateDto) (t : Task),
      t ∈ createTasks sanitize callerId n inputs →
      t.ownerId = callerId ∧ t.completed = false ∧ t.version = 1 ∧
      ∃ k, n ≤ k ∧ k < n + inputs.length ∧ t.id = genId k
  | n, [], t, h => by simp [createTasks] at h
  | n, i :: is, t, h => by
    simp only [createTasks, List.mem_cons] at h
    rcases h with rfl | h
    · exact ⟨rfl, rfl, rfl, n, Nat.le_refl n, by simp, rfl⟩
    · obtain ⟨h1, h2, h3, k, hk1, hk2, hk3⟩ :=
        createTasks_mem sanitize callerId (n + 1) is t h
      refine ⟨h1, h2, h3, k, by omega, ?_, hk3⟩
      simp only [List.length_cons]
      omega

/-- The generated batch has pairwise-distinct ids. -/
theorem createTasks_ids_nodup (sanitize : String → String)
    (callerId : String) :
    ∀ (n : Nat) (inputs : List CreateDto),
      ((createTasks sanitize callerId n inputs).map Task.id).Nodup
  | _, [] => by simp [createTasks]
  | n, i :: is => by
    simp only [createTasks, List.map_cons, List.nodup_cons]
    refine ⟨?_, createTasks_ids_nodup sanitize callerId (n + 1) is⟩
    intro hmem
    rw [List.mem_map] at hmem
    obtain ⟨t, ht, hid⟩ := hmem
    obtain ⟨_, _, _, k, hk1, _, hk3⟩ :=
      createTasks_mem sanitize callerId (n + 1) is t ht
    rw [hk3] at hid
    have := genId_injective hid
    omega

/-! ### C5: bulkCreate all-or-nothing semantics -/

/-- C5: if any element of the batch has an empty/whitespace-only title,
the whole batch fails with `BadRequest` and nothing is persisted;
otherwise every element is persisted in one atomic write and the
created tasks are returned in input order with the caller as owner. -/
theorem bulkCreate_spec (sanitize : String → String)
    (inputs : List CreateDto) (callerId : String) (s : Store) :
    ((∃ i ∈ inputs, strTrim i.title = "") →
      bulkCreate sanitize inputs callerId s = .error .BadRequest ∧
      step sanitize (.opBulkCreate inputs callerId) s = s) ∧
    ((∀ i ∈ inputs, strTrim i.title ≠ "") → ∃ ts s',
      bulkCreate sanitize inputs callerId s = .ok (ts, s') ∧
      ts.length = inputs.length ∧
      ts.map Task.title = inputs.map CreateDto.title ∧
      ts.map Task.description =
        inputs.map (fun i => i.description.map sanitize) ∧
      (∀ t ∈ ts, t.ownerId = callerId ∧ t.completed = false ∧
        t.version = 1) ∧
      s'.tasks = s.tasks ++ ts) := by
  constructor
  · intro h
    have hA : (inputs.any (fun i => strTrim i.title == "")) = true := by
      rw [List.any_eq_true]
      obtain ⟨i, hi, he⟩ := h
      exact ⟨i, hi, by simpa using he⟩
    exact ⟨by simp [bulkCreate, hA], by simp [step, bulkCreate, hA]⟩
  · intro h
    have hA : (inputs.any (fun i => strTrim i.title == "")) = false := by
      rw [List.any_eq_false]
      intro i hi
      simpa using h i hi
    refine ⟨createTasks sanitize callerId s.nextId inputs,
            ⟨s.tasks ++ createTasks sanitize callerId s.nextId inputs,
             s.nextId + inputs.length⟩,
            by simp [bulkCreate, hA],
            createTasks_length sanitize callerId s.nextId inputs,
            createTasks_map_title sanitize callerId s.nextId inputs,
            createTasks_map_description sanitize callerId s.nextId inputs,
            ?_, rfl⟩
    intro t ht
    obtain ⟨h1, h2, h3, _⟩ :=
      createTasks_mem sanitize callerId s.nextId inputs t ht
    exact ⟨h1, h2, h3⟩

/-- Witness for C5 at concrete inputs: a batch with one empty title
fails whole; a fully valid batch is persisted in order. -/
theorem bulkCreate_spec_witness :
    (bulkCreate (fun d => "s:" ++ d) [⟨"A", none⟩, ⟨" ", some "x"⟩]
      "u1" demoStore = .error .BadRequest ∧
     step (fun d => "s:" ++ d)
       (.opBulkCreate [⟨"A", none⟩, ⟨" ", some "x"⟩] "u1") demoStore =
       demoStore) ∧
    (∃ ts s', bulkCreate (fun d => "s:" ++ d) [⟨"A", none⟩, ⟨"B", some "x"⟩]
        "u1" demoStore = .ok (ts, s') ∧
      ts.length = ([⟨"A", none⟩, ⟨"B", some "x"⟩] : List CreateDto).length ∧
      ts.map Task.title =
        ([⟨"A", none⟩, ⟨"B", some "x"⟩] : List CreateDto).map CreateDto.title ∧
      ts.map Task.description =
        ([⟨"A", none⟩, ⟨"B", some "x"⟩] : List CreateDto).map
          (fun i => i.description.map (fun d => "s:" ++ d)) ∧
      (∀ t ∈ ts, t.ownerId = "u1" ∧ t.completed = false ∧ t.version = 1) ∧
      s'.tasks = demoStore.tasks ++ ts) :=
  ⟨(bulkCreate_spec (fun d => "s:" ++ d) [⟨"A", none⟩, ⟨" ", some "x"⟩]
      "u1" demoStore).1 (by decide),
   (bulkCreate_spec (fun d => "s:" ++ d) [⟨"A", none⟩, ⟨"B", some "x"⟩]
      "u1" demoStore).2 (by decide)⟩

/-! ### C6: bulkDelete partition -/

/-- The helper ownedBy decides exactly resolution to a caller-owned
record. -/
theorem ownedBy_iff (s : Store) (callerId id : String) :
    ownedBy s callerId id = true ↔
      ∃ t, findTaskById s id = some t ∧ t.ownerId = callerId := by
  unfold ownedBy
  cases hf : findTaskById s id <;> simp [hf]

/-- Boolean list containment agrees with membership. -/
theorem contains_eq_mem {l : List String} {a : String} :
    l.contains a = true ↔ a ∈ l := by
  simp [List.contains_iff_exists_mem_beq]

/-- C6: `bulkDelete` partitions the requested ids into `deleted` (those
resolving to caller-owned records) and `notFound` (missing or foreign
ids), removes from storage exactly the tasks whose id is in `deleted`,
and — being a total function into a plain result record — raises no
error for missing or foreign ids. -/
theorem bulkDelete_spec (ids : List String) (callerId : String) (s : Store) :
    (∀ id, id ∈ (bulkDelete ids callerId s).1.deleted ↔
      id ∈ ids ∧ ∃ t, findTaskById s id = some t ∧ t.ownerId = callerId) ∧
    (∀ id, id ∈ (bulkDelete ids callerId s).1.notFound ↔
      id ∈ ids ∧ ¬∃ t, findTaskById s id = some t ∧ t.ownerId = callerId) ∧
    (∀ t, t ∈ (bulkDelete ids callerId s).2.tasks ↔
      t ∈ s.tasks ∧ t.id ∉ (bulkDelete ids callerId s).1.deleted) := by
  refine ⟨fun id => ?_, fun id => ?_, fun t => ?_⟩
  · rw [show (bulkDelete ids callerId s).1.deleted =
        ids.filter (fun id => ownedBy s callerId id) from rfl]
    rw [List.mem_filter, ownedBy_iff]
  · rw [show (bulkDelete ids callerId s).1.notFound =
        ids.filter (fun id => !(ownedBy s callerId id)) from rfl]
    rw [List.mem_filter]
    constructor
    · rintro ⟨h1, h2⟩
      refine ⟨h1, fun hx => ?_⟩
      rw [← ownedBy_iff] at hx
      simp [hx] at h2
    · rintro ⟨h1, h2⟩
      refine ⟨h1, ?_⟩
      rw [← ownedBy_iff s callerId id] at h2
      rw [Bool.eq_false_iff.mpr h2]
      rfl
  · rw [show (bulkDelete ids callerId s).2.tasks =
        s.tasks.filter (fun t =>
          !((ids.filter (fun id => ownedBy s callerId id)).contains t.id))
        from rfl]
    rw [List.mem_filter]
    constructor
    · rintro ⟨h1, h2⟩
      refine ⟨h1, fun hmem => ?_⟩
      rw [show (bulkDelete ids callerId s).1.deleted =
          ids.filter (fun id => ownedBy s callerId id) from rfl] at hmem
      rw [← contains_eq_mem] at hmem
      rw [hmem] at h2
      exact absurd h2 (by decide)
    · rintro ⟨h1, h2⟩
      refine ⟨h1, ?_⟩
      rw [show (bulkDelete ids callerId s).1.deleted =
          ids.filter (fun id => ownedBy s callerId id) from rfl] at h2
      rw [← contains_eq_mem] at h2
      rw [Bool.eq_false_iff.mpr h2]
      rfl

/-- Witness for C6 at concrete inputs: an owned id is deleted, a
missing id is reported notFound, and the owned record is removed. -/
theorem bulkDelete_spec_witness :
    genId 0 ∈ (bulkDelete [genId 0, genId 5] "u1" demoStore).1.deleted ∧
    genId 5 ∈ (bulkDelete [genId 0, genId 5] "u1" demoStore).1.notFound ∧
    (demoTask1 ∈ (bulkDelete [genId 0, genId 5] "u1" demoStore).2.tasks ↔
      demoTask1 ∈ demoStore.tasks ∧
      demoTask1.id ∉ (bulkDelete [genId 0, genId 5] "u1" demoStore).1.deleted) := by
  refine ⟨?_, ?_,
    (bulkDelete_spec [genId 0, genId 5] "u1" demoStore).2.2 demoTask1⟩
  · exact ((bulkDelete_spec [genId 0, genId 5] "u1" demoStore).1
      (genId 0)).mpr ⟨by decide, demoTask1, by decide, by decide⟩
  · refine ((bulkDelete_spec [genId 0, genId 5] "u1" demoStore).2.1
      (genId 5)).mpr ⟨by decide, ?_⟩
    rintro ⟨t, ht, -⟩
    rw [show findTaskById demoStore (genId 5) = none from by decide] at ht
    cases ht

/-! ### C8: sanitization applies to the description only

The sanitizer itself is modelled as an arbitrary total function
`sanitize : String → String`; totality is the shallow-embedding
rendering of "never throws".  The theorem quantifies over every such
function, so the title conclusions (`t.title = input.title`, the `getD`
merge) show in particular that no sanitization is applied to titles,
and `Option.map` shows an absent description stays absent. -/

/-- C8: on every successful `create`, `update` whose patch supplies a
description, and `bulkCreate`, the persisted description is exactly the
sanitizer applied to the supplied description (absent stays absent),
while the title is passed through unsanitized. -/
theorem sanitize_description_only (sanitize : String → String) :
    (∀ (input : CreateDto) (callerId : String) (s : Store) (t : Task)
        (s' : Store),
      create sanitize input callerId s = .ok (t, s') →
      t.description = input.description.map sanitize ∧
      t.title = input.title ∧
      (input.description = none → t.description = none)) ∧
    (∀ (id : String) (patch : UpdateDto) (callerId : String) (s : Store)
        (cur t' : Task) (s' : Store),
      findTaskById s id = some cur →
      update sanitize id patch callerId s = .ok (t', s') →
      (∀ d, patch.description = some d →
        t'.description = some (sanitize d)) ∧
      (patch.description = none → t'.description = cur.description) ∧
      t'.title = patch.title.getD cur.title) ∧
    (∀ (inputs : List CreateDto) (callerId : String) (s : Store)
        (ts : List Task) (s' : Store),
      bulkCreate sanitize inputs callerId s = .ok (ts, s') →
      ts.map Task.description =
        inputs.map (fun i => i.description.map sanitize) ∧
      ts.map Task.title = inputs.map CreateDto.title) := by
  refine ⟨?_, ?_, ?_⟩
  · intro input callerId s t s' h
    obtain ⟨ht, -⟩ := create_ok_elim h
    subst ht
    exact ⟨rfl, rfl, fun hd => by simp [hd]⟩
  · intro id patch callerId s cur t' s' hfind h
    obtain ⟨cur', hf', ho', hv', ht', hs'⟩ := update_ok_elim h
    rw [hfind] at hf'
    obtain rfl : cur' = cur := by simpa using hf'.symm
    subst ht'
    refine ⟨fun d hd => by simp [mergePatch, hd], fun hd => by
      simp [mergePatch, hd], rfl⟩
  · intro inputs callerId s ts s' h
    obtain ⟨hts, -⟩ := bulkCreate_ok_elim h
    subst hts
    exact ⟨createTasks_map_description sanitize callerId s.nextId inputs,
           createTasks_map_title sanitize callerId s.nextId inputs⟩

/-- Witness for C8 at concrete inputs: a concrete sanitizer applied to
create and to an update supplying a description. -/
theorem sanitize_description_only_witness :
    (create (fun d => "s:" ++ d) ⟨"T", some "x"⟩ "u1" demoStore =
      .ok (⟨genId 2, "T", some "s:x", false, "u1", 1⟩,
        ⟨demoStore.tasks ++ [⟨genId 2, "T", some "s:x", false, "u1", 1⟩], 3⟩) ∧
      (⟨genId 2, "T", some "s:x", false, "u1", 1⟩ : Task).description =
        (some "x").map (fun d => "s:" ++ d) ∧
      (⟨genId 2, "T", some "s:x", false, "u1", 1⟩ : Task).title = "T") ∧
    (∀ d, (⟨none, some "y", none, some 1, none⟩ : UpdateDto).description =
        some d →
      (mergePatch (fun d => "s:" ++ d) demoTask1
        ⟨none, some "y", none, some 1, none⟩).description =
        some ("s:" ++ d)) := by
  have hc : create (fun d => "s:" ++ d) ⟨"T", some "x"⟩ "u1" demoStore =
      .ok (⟨genId 2, "T", some "s:x", false, "u1", 1⟩,
        ⟨demoStore.tasks ++ [⟨genId 2, "T", some "s:x", false, "u1", 1⟩], 3⟩) := by
    rfl
  have hu : update (fun d => "s:" ++ d) (genId 0)
      ⟨none, some "y", none, some 1, none⟩ "u1" demoStore =
      .ok (mergePatch (fun d => "s:" ++ d) demoTask1
            ⟨none, some "y", none, some 1, none⟩,
           storeUpdate demoStore (genId 0)
            (mergePatch (fun d => "s:" ++ d) demoTask1
              ⟨none, some "y", none, some 1, none⟩)) := by
    rfl
  have h1 := (sanitize_description_only (fun d => "s:" ++ d)).1
    ⟨"T", some "x"⟩ "u1" demoStore _ _ hc
  have h2 := (sanitize_description_only (fun d => "s:" ++ d)).2.1
    (genId 0) ⟨none, some "y", none, some 1, none⟩ "u1" demoStore
    demoTask1 _ _ (by decide) hu
  exact ⟨⟨hc, h1.1, h1.2.1⟩, h2.1⟩

/-! ### C10: ownerId immutability machinery -/

/-- Unfolding of `steps` on a cons. -/
theorem steps_cons (sanitize : String → String) (op : Op) (ops : List Op)
    (s : Store) :
    steps sanitize (op :: ops) s = steps sanitize ops (step sanitize op s) :=
  rfl

/-- The id counter never decreases across an operation. -/
theorem step_nextId_le (sanitize : String → String) (op : Op) (s : Store) :
    s.nextId ≤ (step sanitize op s).nextId := by
  cases op with
  | opCreate input caller =>
    cases hc : create sanitize input caller s with
    | error e => simp [step, hc]
    | ok p =>
      obtain ⟨t, s'⟩ := p
      obtain ⟨-, hs'⟩ := create_ok_elim hc
      subst hs'
      simp [step, hc]
  | opUpdate id patch caller =>
    cases hc : update sanitize id patch caller s with
    | error e => simp [step, hc]
    | ok p =>
      obtain ⟨t', s'⟩ := p
      obtain ⟨cur, -, -, -, -, hs'⟩ := update_ok_elim hc
      subst hs'
      simp [step, hc, storeUpdate]
  | opRemove id caller =>
    cases hc : remove id caller s with
    | error e => simp [step, hc]
    | ok s' =>
      obtain ⟨-, hs'⟩ := remove_ok_elim hc
      subst hs'
      simp [step, hc]
  | opBulkCreate inputs caller =>
    cases hc : bulkCreate sanitize inputs caller s with
    | error e => simp [step, hc]
    | ok p =>
      obtain ⟨ts, s'⟩ := p
      obtain ⟨-, hs'⟩ := bulkCreate_ok_elim hc
      subst hs'
      simp [step, hc]
  | opBulkDelete ids caller => simp [step, bulkDelete]

/-- The sample store is well-formed. -/
theorem demoStore_WF : Store.WF demoStore := by
  constructor
  · intro t ht
    simp [demoStore] at ht
    rcases ht with rfl | rfl
    · exact ⟨0, by decide, rfl⟩
    · exact ⟨1, by decide, rfl⟩
  · decide

/-- Every operation preserves store well-formedness. -/
theorem step_WF (sanitize : String → String) (op : Op) (s : Store)
    (hWF : Store.WF s) : Store.WF (step sanitize op s) := by
  obtain ⟨hW1, hW2⟩ := hWF
  cases op with
  | opCreate input caller =>
    cases hc : create sanitize input caller s with
    | error e =>
      simp only [step, hc]
      exact ⟨hW1, hW2⟩
    | ok p =>
      obtain ⟨t, s'⟩ := p
      obtain ⟨ht, hs'⟩ := create_ok_elim hc
      subst hs'
      simp only [step, hc]
      constructor
      · intro u hu
        simp only [List.mem_append, List.mem_singleton] at hu
        rcases hu with hu | rfl
        · obtain ⟨k, hk, he⟩ := hW1 u hu
          exact ⟨k, show k < s.nextId + 1 by omega, he⟩
        · exact ⟨s.nextId, show s.nextId < s.nextId + 1 by omega, by rw [ht]⟩
      · show ((s.tasks ++ [t]).map Task.id).Nodup
        rw [List.map_append, List.nodup_append]
        refine ⟨hW2, by simp, ?_⟩
        intro a ha hb
        rw [List.mem_map] at ha
        obtain ⟨u, hu, rfl⟩ := ha
        obtain ⟨k, hk, he⟩ := hW1 u hu
        have hb' : u.id = t.id := by simpa using hb
        rw [he, ht] at hb'
        have := genId_injective hb'
        omega
  | opUpdate id patch caller =>
    cases hc : update sanitize id patch caller s with
    | error e =>
      simp only [step, hc]
      exact ⟨hW1, hW2⟩
    | ok p =>
      obtain ⟨t', s'⟩ := p
      obtain ⟨cur, hf, ho, hv, ht', hs'⟩ := update_ok_elim hc
      subst hs'
      have hcurid : cur.id = id := findTaskById_id hf
      have hg : ∀ x : Task,
          ((fun x => if x.id == id then t' else x) x).id = x.id := by
        intro x
        by_cases hx : x.id = id
        · simp [hx, ht', mergePatch, hcurid]
        · simp [hx]
      simp only [step, hc, storeUpdate]
      constructor
      · intro u hu
        have hu' : u ∈ s.tasks.map (fun x => if x.id == id then t' else x) := hu
        rw [List.mem_map] at hu'
        obtain ⟨x, hx, rfl⟩ := hu'
        obtain ⟨k, hk, he⟩ := hW1 x hx
        exact ⟨k, hk, by rw [hg x, he]⟩
      · show ((s.tasks.map (fun x => if x.id == id then t' else x)).map
          Task.id).Nodup
        rw [List.map_map]
        have heq : (s.tasks.map
            (Task.id ∘ fun x => if x.id == id then t' else x)) =
            s.tasks.map Task.id :=
          List.map_congr_left (fun x _ => hg x)
        rw [heq]
        exact hW2
  | opRemove id caller =>
    cases hc : remove id caller s with
    | error e =>
      simp only [step, hc]
      exact ⟨hW1, hW2⟩
    | ok s' =>
      obtain ⟨-, hs'⟩ := remove_ok_elim hc
      subst hs'
      simp only [step, hc]
      constructor
      · intro u hu
        exact hW1 u (List.mem_filter.mp hu).1
      · exact List.Nodup.sublist ((List.filter_sublist _).map _) hW2
  | opBulkCreate inputs caller =>
    cases hc : bulkCreate sanitize inputs caller s with
    | error e =>
      simp only [step, hc]
      exact ⟨hW1, hW2⟩
    | ok p =>
      obtain ⟨ts, s'⟩ := p
      obtain ⟨hts, hs'⟩ := bulkCreate_ok_elim hc
      subst hs'
      simp only [step, hc]
      constructor
      · intro u hu
        simp only [List.mem_append] at hu
        rcases hu with hu | hu
        · obtain ⟨k, hk, he⟩ := hW1 u hu
          exact ⟨k, show k < s.nextId + inputs.length by omega, he⟩
        · rw [hts] at hu
          obtain ⟨-, -, -, k, hk1, hk2, he⟩ :=
            createTasks_mem sanitize caller s.nextId inputs u hu
          exact ⟨k, show k < s.nextId + inputs.length by omega, he⟩
      · show ((s.tasks ++ ts).map Task.id).Nodup
        rw [List.map_append, List.nodup_append]
        refine ⟨hW2, ?_, ?_⟩
        · rw [hts]
          exact createTasks_ids_nodup sanitize caller s.nextId inputs
        · intro a ha hb
          rw [List.mem_map] at ha hb
          obtain ⟨u, hu, rfl⟩ := ha
          obtain ⟨v, hv', hid⟩ := hb
          obtain ⟨k, hk, he⟩ := hW1 u hu
          rw [hts] at hv'
          obtain ⟨-, -, -, k', hk1, hk2, he'⟩ :=
            createTasks_mem sanitize caller s.nextId inputs v hv'
          rw [he', he] at hid
          have := genId_injective hid
          omega
  | opBulkDelete ids caller =>
    simp only [step, bulkDelete]
    constructor
    · intro u hu
      exact hW1 u (List.mem_filter.mp hu).1
    · exact List.Nodup.sublist ((List.filter_sublist _).map _) hW2

/-- An id below the current counter that is absent from the store stays
absent after any operation: generated ids are always fresh and no
operation re-inserts an old id. -/
theorem step_absent (sanitize : String → String) (op : Op) (s : Store)
    (k : Nat) (hk : k < s.nextId)
    (h : findTaskById s (genId k) = none) :
    findTaskById (step sanitize op s) (genId k) = none := by
  rw [findTaskById, List.find?_eq_none] at h
  rw [findTaskById, List.find?_eq_none]
  intro x hx
  cases op with
  | opCreate input caller =>
    cases hc : create sanitize input caller s with
    | error e =>
      simp only [step, hc] at hx
      exact h x hx
    | ok p =>
      obtain ⟨t, s'⟩ := p
      obtain ⟨ht, hs'⟩ := create_ok_elim hc
      simp only [step, hc] at hx
      rw [hs'] at hx
      have hx' : x ∈ s.tasks ++ [t] := hx
      simp only [List.mem_append, List.mem_singleton] at hx'
      rcases hx' with hx' | rfl
      · exact h x hx'
      · simp only [ht, beq_iff_eq]
        intro he
        have := genId_injective he
        omega
  | opUpdate id patch caller =>
    cases hc : update sanitize id patch caller s with
    | error e =>
      simp only [step, hc] at hx
      exact h x hx
    | ok p =>
      obtain ⟨t', s'⟩ := p
      obtain ⟨cur, hf, ho, hv, ht', hs'⟩ := update_ok_elim hc
      have hcurid : cur.id = id := findTaskById_id hf
      simp only [step, hc] at hx
      rw [hs'] at hx
      have hx' : x ∈ s.tasks.map (fun y => if y.id == id then t' else y) := hx
      rw [List.mem_map] at hx'
      obtain ⟨y, hy, rfl⟩ := hx'
      have hyid : ((fun y => if y.id == id then t' else y) y).id = y.id := by
        by_cases hyy : y.id = id
        · simp [hyy, ht', mergePatch, hcurid]
        · simp [hyy]
      simp only [hyid]
      exact h y hy
  | opRemove id caller =>
    cases hc : remove id caller s with
    | error e =>
      simp only [step, hc] at hx
      exact h x hx
    | ok s' =>
      obtain ⟨-, hs'⟩ := remove_ok_elim hc
      simp only [step, hc] at hx
      rw [hs'] at hx
      exact h x (List.mem_filter.mp hx).1
  | opBulkCreate inputs caller =>
    cases hc : bulkCreate sanitize inputs caller s with
    | error e =>
      simp only [step, hc] at hx
      exact h x hx
    | ok p =>
      obtain ⟨ts, s'⟩ := p
      obtain ⟨hts, hs'⟩ := bulkCreate_ok_elim hc
      simp only [step, hc] at hx
      rw [hs'] at hx
      have hx' : x ∈ s.tasks ++ ts := hx
      simp only [List.mem_append] at hx'
      rcases hx' with hx' | hx'
      · exact h x hx'
      · rw [hts] at hx'
        obtain ⟨-, -, -, k', hk1, hk2, he⟩ :=
          createTasks_mem sanitize caller s.nextId inputs x hx'
        simp only [he, beq_iff_eq]
        intro heq
        have := genId_injective heq
        omega
  | opBulkDelete ids caller =>
    have hx' : x ∈ s.tasks.filter (fun t =>
        !((ids.filter (fun i => ownedBy s caller i)).contains t.id)) := hx
    exact h x (List.mem_filter.mp hx').1

/-- An id below the counter that is absent from a well-formed store
stays absent across any sequence of operations. -/
theorem steps_absent (sanitize : String → String) (ops : List Op) :
    ∀ (s : Store) (k : Nat), Store.WF s → k < s.nextId →
      findTaskById s (genId k) = none →
      findTaskById (steps sanitize ops s) (genId k) = none := by
  induction ops with
  | nil => intro s k _ _ h; exact h
  | cons op ops ih =>
    intro s k hWF hk h
    rw [steps_cons]
    exact ih (step sanitize op s) k (step_WF sanitize op s hWF)
      (Nat.lt_of_lt_of_le hk (step_nextId_le sanitize op s))
      (step_absent sanitize op s k hk h)

/-- One operation never changes the ownerId of a record that survives
it, in a store with pairwise-distinct ids. -/
theorem step_owner (sanitize : String → String) (op : Op) (s : Store)
    (id : String) (t t' : Task) (hWF : Store.WF s)
    (h : findTaskById s id = some t)
    (h' : findTaskById (step sanitize op s) id = some t') :
    t'.ownerId = t.ownerId := by
  obtain ⟨hW1, hW2⟩ := hWF
  cases op with
  | opCreate input caller =>
    cases hc : create sanitize input caller s with
    | error e =>
      simp only [step, hc] at h'
      rw [h] at h'
      obtain rfl : t = t' := by simpa using h'
      rfl
    | ok p =>
      obtain ⟨tn, s'⟩ := p
      obtain ⟨-, hs'⟩ := create_ok_elim hc
      simp only [step, hc] at h'
      rw [hs'] at h'
      have h'' : (s.tasks ++ [tn]).find? (fun x => x.id == id) = some t' := h'
      rw [List.find?_append, show s.tasks.find? (fun x => x.id == id) =
        some t from h] at h''
      obtain rfl : t = t' := by simpa using h''
      rfl
  | opUpdate uid patch caller =>
    cases hc : update sanitize uid patch caller s with
    | error e =>
      simp only [step, hc] at h'
      rw [h] at h'
      obtain rfl : t = t' := by simpa using h'
      rfl
    | ok p =>
      obtain ⟨tm, s'⟩ := p
      obtain ⟨cur, hf, ho, hv, htm, hs'⟩ := update_ok_elim hc
      have hcurid : cur.id = uid := findTaskById_id hf
      have hg : ∀ x : Task,
          ((fun x => if x.id == uid then tm else x) x).id = x.id := by
        intro x
        by_cases hx : x.id = uid
        · simp [hx, htm, mergePatch, hcurid]
        · simp [hx]
      simp only [step, hc] at h'
      rw [hs'] at h'
      have h'' : (s.tasks.map
          (fun x => if x.id == uid then tm else x)).find?
          (fun x => x.id == id) = some t' := h'
      rw [find?_map_of_id_eq _ _ hg, show s.tasks.find? (fun x => x.id == id) =
        some t from h] at h''
      have ht' : t' = if t.id == uid then tm else t := by simpa using h''.symm
      by_cases htid : t.id = uid
      · have hcteq : t = cur := by
          rw [← htid] at hf
          rw [show findTaskById s t.id = findTaskById s id from by
            rw [findTaskById_id h]] at hf
          rw [h] at hf
          simpa using hf
        rw [ht', if_pos (by simpa using htid), htm]
        show (mergePatch sanitize cur patch).ownerId = t.ownerId
        show cur.ownerId = t.ownerId
        rw [← hcteq]
      · rw [ht', if_neg (by simpa using htid)]
  | opRemove uid caller =>
    cases hc : remove uid caller s with
    | error e =>
      simp only [step, hc] at h'
      rw [h] at h'
      obtain rfl : t = t' := by simpa using h'
      rfl
    | ok s' =>
      obtain ⟨-, hs'⟩ := remove_ok_elim hc
      simp only [step, hc] at h'
      rw [hs'] at h'
      have h'' : (s.tasks.filter (fun x => !(x.id == uid))).find?
          (fun x => x.id == id) = some t' := h'
      have ht'mem : t' ∈ s.tasks :=
        (List.mem_filter.mp (List.mem_of_find?_eq_some h'')).1
      have hid1 : t'.id = id := by simpa using List.find?_some h''
      have : t' = t :=
        eq_of_mem_of_id_eq hW2 ht'mem (findTaskById_mem h)
          (hid1.trans (findTaskById_id h).symm)
      rw [this]
  | opBulkCreate inputs caller =>
    cases hc : bulkCreate sanitize inputs caller s with
    | error e =>
      simp only [step, hc] at h'
      rw [h] at h'
      obtain rfl : t = t' := by simpa using h'
      rfl
    | ok p =>
      obtain ⟨ts, s'⟩ := p
      obtain ⟨-, hs'⟩ := bulkCreate_ok_elim hc
      simp only [step, hc] at h'
      rw [hs'] at h'
      have h'' : (s.tasks ++ ts).find? (fun x => x.id == id) = some t' := h'
      rw [List.find?_append, show s.tasks.find? (fun x => x.id == id) =
        some t from h] at h''
      obtain rfl : t = t' := by simpa using h''
      rfl
  | opBulkDelete ids caller =>
    have h'' : (s.tasks.filter (fun x =>
        !((ids.filter (fun i => ownedBy s caller i)).contains x.id))).find?
        (fun x => x.id == id) = some t' := h'
    have ht'mem : t' ∈ s.tasks :=
      (List.mem_filter.mp (List.mem_of_find?_eq_some h'')).1
    have hid1 : t'.id = id := by simpa using List.find?_some h''
    have : t' = t :=
      eq_of_mem_of_id_eq hW2 ht'mem (findTaskById_mem h)
        (hid1.trans (findTaskById_id h).symm)
    rw [this]

/-- Across any sequence of operations on a well-formed store, a record
that survives keeps its ownerId. -/
theorem steps_owner (sanitize : String → String) (ops : List Op) :
    ∀ (s : Store) (id : String) (t t' : Task), Store.WF s →
      findTaskById s id = some t →
      findTaskById (steps sanitize ops s) id = some t' →
      t'.ownerId = t.ownerId := by
  induction ops with
  | nil =>
    intro s id t t' _ h h'
    have h'' : findTaskById s id = some t' := h'
    rw [h] at h''
    obtain rfl : t = t' := by simpa using h''
    rfl
  | cons op ops ih =>
    intro s id t t' hWF h h'
    rw [steps_cons] at h'
    cases hf : findTaskById (step sanitize op s) id with
    | none =>
      exfalso
      obtain ⟨k, hk, hkid⟩ := hWF.1 t (findTaskById_mem h)
      have hid : id = genId k := by rw [← findTaskById_id h, hkid]
      subst hid
      have habs := steps_absent sanitize ops (step sanitize op s) k
        (step_WF sanitize op s hWF)
        (Nat.lt_of_lt_of_le hk (step_nextId_le sanitize op s)) hf
      rw [habs] at h'
      cases h'
    | some t₁ =>
      have h₁ := step_owner sanitize op s id t t₁ hWF h hf
      have h₂ := ih (step sanitize op s) id t₁ t'
        (step_WF sanitize op s hWF) hf h'
      rw [h₂, h₁]

/-! ### C10: ownerId is immutable -/

/-- C10: a stored task's ownerId never changes.  The empty store is
well-formed and every operation preserves well-formedness, so every
reachable store is well-formed; on a well-formed store, no sequence of
operations (updates — even ones whose patch supplies an `ownerId` —,
bulk creates, bulk deletes, removes) changes the ownerId of a surviving
record, and every record created by `create`/`bulkCreate` starts with
`ownerId` equal to the creating caller. -/
theorem ownerId_immutable (sanitize : String → String) :
    Store.WF Store.init ∧
    (∀ op s, Store.WF s → Store.WF (step sanitize op s)) ∧
    (∀ (ops : List Op) (s : Store) (id : String) (t t' : Task),
      Store.WF s →
      findTaskById s id = some t →
      findTaskById (steps sanitize ops s) id = some t' →
      t'.ownerId = t.ownerId) ∧
    (∀ (id : String) (patch : UpdateDto) (callerId : String) (s : Store)
        (cur t' : Task) (s' : Store),
      findTaskById s id = some cur →
      update sanitize id patch callerId s = .ok (t', s') →
      t'.ownerId = cur.ownerId) ∧
    (∀ (input : CreateDto) (callerId : String) (s : Store) (t : Task)
        (s' : Store),
      create sanitize input callerId s = .ok (t, s') →
      t.ownerId = callerId) ∧
    (∀ (inputs : List CreateDto) (callerId : String) (s : Store)
        (ts : List Task) (s' : Store),
      bulkCreate sanitize inputs callerId s = .ok (ts, s') →
      ∀ t ∈ ts, t.ownerId = callerId) := by
  refine ⟨⟨fun t ht => absurd ht (by simp [Store.init]), by simp [Store.init]⟩,
    fun op s hWF => step_WF sanitize op s hWF,
    fun ops s id t t' hWF h h' => steps_owner sanitize ops s id t t' hWF h h',
    ?_, ?_, ?_⟩
  · intro id patch callerId s cur t' s' hfind h
    obtain ⟨cur', hf', -, -, ht', -⟩ := update_ok_elim h
    rw [hfind] at hf'
    obtain rfl : cur' = cur := by simpa using hf'.symm
    rw [ht']
    rfl
  · intro input callerId s t s' h
    obtain ⟨ht, -⟩ := create_ok_elim h
    rw [ht]
  · intro inputs callerId s ts s' h t ht
    obtain ⟨hts, -⟩ := bulkCreate_ok_elim h
    rw [hts] at ht
    exact (createTasks_mem sanitize callerId s.nextId inputs t ht).1

/-- Witness for C10 at concrete inputs: after an update whose patch even
supplies a foreign `ownerId`, followed by a bulk delete of the other
task, the surviving record still belongs to its creator. -/
theorem ownerId_immutable_witness :
    ∃ t', findTaskById
        (steps (fun d => d)
          [.opUpdate (genId 0) ⟨some "T", none, none, some 1, some "u9"⟩ "u1",
           .opBulkDelete [genId 1] "u2"]
          demoStore) (genId 0) = some t' ∧
      t'.ownerId = demoTask1.ownerId := by
  refine ⟨{ id := genId 0, title := "T", description := none
            completed := false, ownerId := "u1", version := 2 },
          by decide, ?_⟩
  exact (ownerId_immutable (fun d => d)).2.2.1
    [.opUpdate (genId 0) ⟨some "T", none, none, some 1, some "u9"⟩ "u1",
     .opBulkDelete [genId 1] "u2"]
    demoStore (genId 0) demoTask1
    { id := genId 0, title := "T", description := none
      completed := false, ownerId := "u1", version := 2 }
    demoStore_WF (by decide) (by decide)

end Taskboard
